import Mathlib

/-
Verification of the pyslam dense-stereo core against its specification.

The development shallowly embeds the two Python modules
`pyslam/costs.py` and `pyslam/pipelines/dense_stereo.py`.

External collaborators (the spec's section 6: Lie-group algebra from the
`liegroups` package, camera models, the bilinear image sampler, OpenCV
pyramid/disparity/gradient providers, and the `pyslam.problem` solver
module, none of which are part of the two embedded source files) are
modelled as abstract operation records, faithful to the capability
contracts the spec assigns them.  Machine floats are modelled by `Rat`;
a Python function that can raise is modelled as returning `Option`.
-/

set_option autoImplicit false

namespace Pyslam

/-- Numpy-style boolean-mask indexing `xs[mask]`: keep the entries of `xs`
whose corresponding mask entry is `true`. -/
def maskFilter {α : Type} (mask : List Bool) (xs : List α) : List α :=
  (mask.zip xs).filterMap (fun p => if p.1 then some p.2 else none)

/-- Python truthiness of an optional list argument: `None` and the empty
list are falsy, a non-empty list is truthy (`if compute_jacobians:`). -/
def truthy (cj : Option (List Bool)) : Bool :=
  match cj with
  | none => false
  | some flags => !flags.isEmpty

/-- Modelled from the spec: the external Lie-group algebra interface
(`liegroups.SE3` and friends; spec section 6): composition, inverse,
identity, logarithm to the `dof`-dimensional tangent space, and the
adjoint action as a `dof x dof` matrix. -/
structure LieGroupOps (G : Type) (dof : ℕ) where
  mul : G → G → G
  inv : G → G
  one : G
  log : G → (Fin dof → ℚ)
  adjoint : G → Matrix (Fin dof) (Fin dof) ℚ

/-- The algebraic laws of the external Lie-group interface that the
zero-residual property relies on. -/
structure LieGroupLaws {G : Type} {dof : ℕ} (ops : LieGroupOps G dof) : Prop where
  mul_inv : ∀ g : G, ops.mul g (ops.inv g) = ops.one
  inv_one : ops.inv ops.one = ops.one
  mul_one : ∀ g : G, ops.mul g ops.one = g
  log_one : ops.log ops.one = 0

/-! ## costs.py -/

/-- `QuadraticCost` from `pyslam/costs.py`: a scalar parabola-fitting cost. -/
structure QuadraticCost where
  x : ℚ
  y : ℚ
  stiffness : ℚ
deriving DecidableEq

/-- `QuadraticCost.evaluate` from `pyslam/costs.py` (lines 17-37).
`compute_jacobians = none` models the Python argument being omitted or
`None`; out-of-range parameter access models a raised `IndexError` as
`none`. -/
def QuadraticCost.evaluate (c : QuadraticCost) (params : List ℚ)
    (compute_jacobians : Option (List Bool)) :
    Option (List ℚ × Option (List (Option ℚ))) := do
  let p0 ← params[0]?
  let p1 ← params[1]?
  let p2 ← params[2]?
  let residual := [c.stiffness * (p0 * c.x * c.x + p1 * c.x + p2 - c.y)]
  if truthy compute_jacobians then
    let flags := compute_jacobians.getD []
    let f0 ← flags[0]?
    let f1 ← flags[1]?
    let f2 ← flags[2]?
    let jacobians : List (Option ℚ) :=
      [if f0 then some (c.stiffness * c.x * c.x) else none,
       if f1 then some (c.stiffness * c.x) else none,
       if f2 then some (c.stiffness * 1) else none]
    some (residual, some jacobians)
  else
    some (residual, none)

/-- `PoseCost` from `pyslam/costs.py`: unary absolute-pose cost. -/
structure PoseCost (G : Type) (dof : ℕ) where
  T_obs : G
  stiffness : Matrix (Fin dof) (Fin dof) ℚ

/-- `PoseCost.evaluate` from `pyslam/costs.py` (lines 48-63). -/
def PoseCost.evaluate {G : Type} {dof : ℕ} (ops : LieGroupOps G dof)
    (c : PoseCost G dof) (params : List G)
    (compute_jacobians : Option (List Bool)) :
    Option ((Fin dof → ℚ) × Option (List (Option (Matrix (Fin dof) (Fin dof) ℚ)))) := do
  let T_est ← params[0]?
  let residual := c.stiffness.mulVec (ops.log (ops.mul T_est (ops.inv c.T_obs)))
  if truthy compute_jacobians then
    let flags := compute_jacobians.getD []
    let f0 ← flags[0]?
    let base : List (Option (Matrix (Fin dof) (Fin dof) ℚ)) := params.map (fun _ => none)
    let jacobians :=
      if f0 then base.set 0 (some (c.stiffness * (1 : Matrix (Fin dof) (Fin dof) ℚ))) else base
    some (residual, some jacobians)
  else
    some (residual, none)

/-- `PoseToPoseCost` from `pyslam/costs.py`: binary relative-pose cost. -/
structure PoseToPoseCost (G : Type) (dof : ℕ) where
  T_2_1_obs : G
  stiffness : Matrix (Fin dof) (Fin dof) ℚ

/-- `PoseToPoseCost.evaluate` from `pyslam/costs.py` (lines 74-94). -/
def PoseToPoseCost.evaluate {G : Type} {dof : ℕ} (ops : LieGroupOps G dof)
    (c : PoseToPoseCost G dof) (params : List G)
    (compute_jacobians : Option (List Bool)) :
    Option ((Fin dof → ℚ) × Option (List (Option (Matrix (Fin dof) (Fin dof) ℚ)))) := do
  let T_1_0_est ← params[0]?
  let T_2_0_est ← params[1]?
  let residual := c.stiffness.mulVec
    (ops.log (ops.mul (ops.mul T_2_0_est (ops.inv T_1_0_est)) (ops.inv c.T_2_1_obs)))
  if truthy compute_jacobians then
    let flags := compute_jacobians.getD []
    let f0 ← flags[0]?
    let f1 ← flags[1]?
    let base : List (Option (Matrix (Fin dof) (Fin dof) ℚ)) := params.map (fun _ => none)
    let withJ0 :=
      if f0 then base.set 0 (some (c.stiffness * (-(ops.adjoint T_2_0_est)))) else base
    let jacobians :=
      if f1 then withJ0.set 1 (some (c.stiffness * (1 : Matrix (Fin dof) (Fin dof) ℚ)))
      else withJ0
    some (residual, some jacobians)
  else
    some (residual, none)

/-- Modelled from the spec: the external camera interface used by the
reprojection cost (spec section 6): `project` with an optional Jacobian,
acting on 3D points of an abstract type `Pt` and producing measurements of
dimension `m`. -/
structure ReprojCameraOps (Pt : Type) (m : ℕ) where
  project : Pt → (Fin m → ℚ)
  projectJac : Pt → Matrix (Fin m) (Fin 3) ℚ

/-- Modelled from the spec: the external SE3 operations the reprojection
cost consumes (spec section 6): the group action on points, the
perturbation operator `SE3.odot`, and the rotation block as a matrix. -/
structure ReprojGroupOps (G Pt : Type) (dof : ℕ) where
  act : G → Pt → Pt
  odot : Pt → Matrix (Fin 3) (Fin dof) ℚ
  rotMatrix : G → Matrix (Fin 3) (Fin 3) ℚ

/-- `ReprojectionCost` from `pyslam/costs.py`: reprojection error for any
kind of camera.  The two Python parameters (a pose and a 3D point) are
heterogeneous, so the ordered parameter list is embedded as a pair. -/
structure ReprojectionCost (Pt : Type) (m : ℕ) where
  camera : ReprojCameraOps Pt m
  obs : Fin m → ℚ
  stiffness : Matrix (Fin m) (Fin m) ℚ

/-- `ReprojectionCost.evaluate` from `pyslam/costs.py` (lines 105-129).
The returned Jacobian slots correspond to `jacobians[0]` (pose) and
`jacobians[1]` (point). -/
def ReprojectionCost.evaluate {G Pt : Type} {m dof : ℕ}
    (ops : ReprojGroupOps G Pt dof) (c : ReprojectionCost Pt m)
    (params : G × Pt) (compute_jacobians : Option (List Bool)) :
    Option ((Fin m → ℚ) ×
      Option (Option (Matrix (Fin m) (Fin dof) ℚ) × Option (Matrix (Fin m) (Fin 3) ℚ))) := do
  let T_cam_w := params.1
  let pt_w := params.2
  let pt_cam := ops.act T_cam_w pt_w
  if truthy compute_jacobians then
    let flags := compute_jacobians.getD []
    let f0 ← flags[0]?
    let f1 ← flags[1]?
    let cam_jacobian := c.camera.projectJac pt_cam
    let residual := c.stiffness.mulVec (c.camera.project pt_cam - c.obs)
    let jac0 := if f0 then some (c.stiffness * (cam_jacobian * ops.odot pt_cam)) else none
    let jac1 := if f1 then some (c.stiffness * (cam_jacobian * ops.rotMatrix T_cam_w)) else none
    some (residual, some (jac0, jac1))
  else
    some (c.stiffness.mulVec (c.camera.project pt_cam - c.obs), none)

/-- Modelled from the spec: the external camera interface the photometric
cost consumes (spec section 6): image size, validity check on `(u, v, d)`
measurements, `triangulate` and `project` with Jacobian. -/
structure PhotoCamera (Pt : Type) where
  w : ℕ
  h : ℕ
  is_valid_measurement : ℚ × ℚ × ℚ → Bool
  triangulate : ℚ × ℚ × ℚ → Pt
  project : Pt → ℚ × ℚ × ℚ
  projectJac : Pt → Matrix (Fin 3) (Fin 3) ℚ

/-- Modelled from the spec: the remaining external operations the
photometric cost consumes (spec section 6): the SE3 action on points,
`SE3.odot`, and the bilinear image sampler `bilinear_interpolate`. -/
structure PhotoOps (G Pt Img : Type) (dof : ℕ) where
  act : G → Pt → Pt
  odot : Pt → Matrix (Fin 3) (Fin dof) ℚ
  bilinear : Img → ℚ → ℚ → ℚ

/-- `PhotometricCost` from `pyslam/costs.py`: photometric cost for
greyscale images.  Images and per-pixel maps aligned with the reference
image are embedded as functions of the pixel row `v` and column `u`. -/
structure PhotometricCost (Pt Img : Type) where
  camera : PhotoCamera Pt
  im_ref : ℕ → ℕ → ℚ
  disp_ref : ℕ → ℕ → ℚ
  jac_ref : Fin 2 → ℕ → ℕ → ℚ
  im_track : Img
  stiffness : ℚ

/-- The row-major pixel index list `(v, u)` produced by flattening the
`meshgrid` arrays built in `PhotometricCost.__init__`. -/
def gridIndices (w h : ℕ) : List (ℕ × ℕ) :=
  (List.range h).flatMap (fun v => (List.range w).map (fun u => (v, u)))

/-- One row of the photometric Jacobian:
`im_jac[i, :] . project_jac[i, 0:2, :] . SE3.odot(pt_track[i, :])`. -/
def photoJacRow {Pt : Type} {dof : ℕ} (odot : Pt → Matrix (Fin 3) (Fin dof) ℚ)
    (imj : Fin 2 → ℚ) (pj : Matrix (Fin 3) (Fin 3) ℚ) (pt : Pt) : Fin dof → ℚ :=
  Matrix.vecMul imj
    ((Matrix.of (fun (i : Fin 2) (j : Fin 3) => pj i.castSucc j)) * odot pt)

/-- `PhotometricCost.evaluate` from `pyslam/costs.py` (lines 146-214).
Numpy boolean-mask indexing is embedded by `maskFilter`; the Jacobian for
the single pose parameter is a list of rows (the stacked `np.bmat`).
When the pose Jacobian is requested and no pixel survives the two
validity filters, `np.bmat` is applied to an empty block list, which
raises `ValueError` (`np.concatenate` of an empty sequence); that raise
is modelled by returning `none`. -/
def PhotometricCost.evaluate {G Pt Img : Type} {dof : ℕ}
    (ops : PhotoOps G Pt Img dof) (c : PhotometricCost Pt Img)
    (params : List G) (compute_jacobians : Option (List Bool)) :
    Option (List ℚ × Option (List (Option (List (Fin dof → ℚ))))) := do
  let T_track_ref ← params[0]?
  let idx := gridIndices c.camera.w c.camera.h
  let uvd_ref := idx.map (fun p => ((p.2 : ℚ), (p.1 : ℚ), c.disp_ref p.1 p.2))
  let im_ref_true := idx.map (fun p => c.im_ref p.1 p.2)
  let im_jac := idx.map (fun p => fun (i : Fin 2) => c.jac_ref i p.1 p.2)
  let valid_ref := uvd_ref.map c.camera.is_valid_measurement
  let uvd_ref2 := maskFilter valid_ref uvd_ref
  let im_ref_true2 := maskFilter valid_ref im_ref_true
  let im_jac2 := maskFilter valid_ref im_jac
  let pt_ref := uvd_ref2.map c.camera.triangulate
  let pt_track := pt_ref.map (ops.act T_track_ref)
  let uvd_track := pt_track.map c.camera.project
  let project_jac := pt_track.map c.camera.projectJac
  let valid_track := uvd_track.map c.camera.is_valid_measurement
  let uvd_track2 := maskFilter valid_track uvd_track
  let pt_track2 := maskFilter valid_track pt_track
  let im_ref_true3 := maskFilter valid_track im_ref_true2
  let im_jac3 := maskFilter valid_track im_jac2
  let project_jac2 := maskFilter valid_track project_jac
  let im_ref_est := uvd_track2.map (fun mm => ops.bilinear c.im_track mm.1 mm.2.1)
  let residual := (im_ref_est.zip im_ref_true3).map (fun q => c.stiffness * (q.1 - q.2))
  if truthy compute_jacobians then
    let flags := compute_jacobians.getD []
    let f0 ← flags[0]?
    let base : List (Option (List (Fin dof → ℚ))) := params.map (fun _ => none)
    if f0 then
      let jac_blocks := (im_jac3.zip (project_jac2.zip pt_track2)).map
        (fun q => photoJacRow ops.odot q.1 q.2.1 q.2.2)
      if jac_blocks.isEmpty then
        none
      else
        some (residual, some (base.set 0
          (some (jac_blocks.map (fun r => fun j => c.stiffness * r j)))))
    else
      some (residual, some base)
  else
    some (residual, none)

/-! ### Spec-side description of the photometric pipeline

The following definitions follow the words of the spec (section 4.5):
back-project a reference pixel to 3D, warp it by the candidate relative
pose, project it into the tracking image, and sample there.  They are
compared with the embedded `PhotometricCost.evaluate` by the photometric
claims. -/

/-- The `(u, v, disparity)` measurement of a reference pixel `(v, u)`. -/
def photoUvd {Pt Img : Type} (c : PhotometricCost Pt Img) (p : ℕ × ℕ) : ℚ × ℚ × ℚ :=
  ((p.2 : ℚ), (p.1 : ℚ), c.disp_ref p.1 p.2)

/-- Spec section 4.5: the reference pixel back-projected to 3D by the
camera model and warped by the candidate relative pose. -/
def photoPoint {G Pt Img : Type} {dof : ℕ} (ops : PhotoOps G Pt Img dof)
    (c : PhotometricCost Pt Img) (T : G) (p : ℕ × ℕ) : Pt :=
  ops.act T (c.camera.triangulate (photoUvd c p))

/-- Spec section 4.5: the warped point projected into the tracking image. -/
def photoWarp {G Pt Img : Type} {dof : ℕ} (ops : PhotoOps G Pt Img dof)
    (c : PhotometricCost Pt Img) (T : G) (p : ℕ × ℕ) : ℚ × ℚ × ℚ :=
  c.camera.project (photoPoint ops c T p)

/-- The pixels that pass both validity filters: a valid reference
measurement whose warped projection is again a valid measurement. -/
def photoSurvivors {G Pt Img : Type} {dof : ℕ} (ops : PhotoOps G Pt Img dof)
    (c : PhotometricCost Pt Img) (T : G) : List (ℕ × ℕ) :=
  (gridIndices c.camera.w c.camera.h).filter
    (fun p => c.camera.is_valid_measurement (photoUvd c p) &&
              c.camera.is_valid_measurement (photoWarp ops c T p))

/-- Spec section 4.5: the residual of a surviving pixel is the
stiffness-scaled difference between the tracking image sampled by
bilinear interpolation at the warped projection and the true
reference-image intensity at that pixel. -/
def specPhotoResidualAt {G Pt Img : Type} {dof : ℕ} (ops : PhotoOps G Pt Img dof)
    (c : PhotometricCost Pt Img) (T : G) (p : ℕ × ℕ) : ℚ :=
  c.stiffness * (ops.bilinear c.im_track (photoWarp ops c T p).1 (photoWarp ops c T p).2.1
    - c.im_ref p.1 p.2)

/-- Spec section 4.5: one row of the photometric Jacobian of a surviving
pixel, scaled by the stiffness: the frozen reference-image gradient
chained through the projection Jacobian and the perturbation operator at
the warped point. -/
def specPhotoJacRowAt {G Pt Img : Type} {dof : ℕ} (ops : PhotoOps G Pt Img dof)
    (c : PhotometricCost Pt Img) (T : G) (p : ℕ × ℕ) : Fin dof → ℚ :=
  fun j => c.stiffness *
    photoJacRow ops.odot (fun i => c.jac_ref i p.1 p.2)
      (c.camera.projectJac (photoPoint ops c T p)) (photoPoint ops c T p) j

/-! ## pipelines/dense_stereo.py -/

/-- Modelled from the spec: the solver configuration `Options` of
`pyslam.problem` (not under the embedded sources; spec section 3):
maximum iterations, convergence tolerance on cost decrease,
`allow_nondecreasing_steps`, `max_nondecreasing_steps`,
`min_cost_decrease`. -/
structure Options where
  max_iterations : ℕ
  cost_tolerance : ℚ
  allow_nondecreasing_steps : Bool
  max_nondecreasing_steps : ℕ
  min_cost_decrease : ℚ
deriving DecidableEq

/-- The `Options` field assignments performed by
`DenseStereoPipeline.__init__` (lines 78-84) on the freshly constructed
`Options()` instance. -/
def denseStereoInitOptions (constructed : Options) : Options :=
  { constructed with
      allow_nondecreasing_steps := true
      max_nondecreasing_steps := 3
      min_cost_decrease := 99 / 100 }

/-- Modelled from the spec: the external stereo camera model's intrinsic
fields mutated by the per-level deep copy in
`_compute_frame_to_frame_motion` (spec section 6: supports intrinsic
scaling for pyramid levels). -/
structure PyrCamera where
  fu : ℚ
  fv : ℚ
  cu : ℚ
  cv : ℚ
  w : ℕ
  h : ℕ
deriving DecidableEq

/-- Modelled from the spec: the external OpenCV image providers consumed
by `DenseKeyframe` (spec section 6): pyramid downsampling, intensity
conversion (`astype(float) / 255`), per-level stereo disparity
(`StereoSGBM` plus NaN masking), Sobel gradients, and image shape. -/
structure ImageOps (Img : Type) where
  pyrDown : Img → Img
  toFloat : Img → Img
  stereoDisp : ℕ → Img → Img → Img
  sobelX : Img → Img
  sobelY : Img → Img
  width : Img → ℕ
  height : Img → ℕ

/-- `DenseKeyframe` from `pyslam/pipelines/dense_stereo.py`: image
pyramid, optional disparity pyramid, optional gradient pyramid, and the
keyframe's world pose with covariance. -/
structure DenseKeyframe (G Img Cov : Type) where
  pyrlevels : ℕ
  T_c_w : G
  T_c_w_covar : Cov
  image : List Img
  disparity : Option (List Img)
  jacobian : Option (List (Img × Img))
deriving DecidableEq

/-- One iteration of the pyramid-building loop in
`DenseKeyframe.__init__` (lines 24-30).  The state is the Python local
`pyr_left` (or `pyr_right`): `none` models the variable being unbound, so
a fold over zero levels leaves it unbound and the later use raises. -/
def pyrStep {Img : Type} (pyrDown : Img → Img) (im : Img)
    (st : Option (List Img)) (level : ℕ) : Option (List Img) :=
  if level = 0 then
    some [im]
  else do
    let l ← st
    let last ← l.getLast?
    some (l ++ [pyrDown last])

/-- `DenseKeyframe.__init__` from `pyslam/pipelines/dense_stereo.py`
(lines 17-62).  Returns `none` when the Python constructor would raise
(the pyramid locals never assigned because `pyrlevels = 0`). -/
def mkDenseKeyframe {G Img Cov : Type} (iops : ImageOps Img)
    (im_left im_right : Img) (pyrlevels : ℕ) (T_c_w : G) (T_c_w_covar : Cov)
    (compute_disp compute_jac : Bool) : Option (DenseKeyframe G Img Cov) := do
  let pyr_left ← (List.range pyrlevels).foldl (pyrStep iops.pyrDown im_left) none
  let pyr_right ← (List.range pyrlevels).foldl (pyrStep iops.pyrDown im_right) none
  let image := pyr_left.map iops.toFloat
  let disparity :=
    if compute_disp then
      some (((List.range pyrlevels).zip (pyr_left.zip pyr_right)).map
        (fun z => iops.stereoDisp z.1 z.2.1 z.2.2))
    else none
  let jacobian :=
    if compute_jac then
      some (pyr_left.map (fun im => (iops.sobelX im, iops.sobelY im)))
    else none
  some ⟨pyrlevels, T_c_w, T_c_w_covar, image, disparity, jacobian⟩

/-- Modelled from the spec: the loss kinds of `pyslam.losses`
(spec section 4.3); the dense pipeline always passes `L2Loss()`. -/
inductive LossKind where
  | L2 : LossKind
  | Huber : ℚ → LossKind
deriving DecidableEq

/-- The constructor arguments of the per-level `PhotometricResidual`
built in `_compute_frame_to_frame_motion` (lines 119-129); the
constructor itself lives in the external `pyslam.residuals`. -/
structure PhotometricResidualArgs (Img : Type) where
  camera : PyrCamera
  im_ref : Img
  disp_ref : Img
  jac_ref : Img × Img
  im_track : Img
  stiffness : ℚ
  loss : LossKind
deriving DecidableEq

/-- Modelled from the spec: the registration surface of
`pyslam.problem.Problem` (not under the embedded sources; spec
section 3): solver options, the list of residual blocks with their
ordered parameter identifiers, and the initialized parameter values. -/
structure ProblemModel (G Img : Type) where
  options : Options
  residual_blocks : List (PhotometricResidualArgs Img × List String)
  init_params : List (String × G)
deriving DecidableEq

/-- A fresh `Problem(self.problem_options)`. -/
def ProblemModel.empty {G Img : Type} (opts : Options) : ProblemModel G Img :=
  ⟨opts, [], []⟩

/-- `Problem.add_residual_block`: appends one residual block. -/
def ProblemModel.add_residual_block {G Img : Type} (p : ProblemModel G Img)
    (residual : PhotometricResidualArgs Img) (pids : List String) : ProblemModel G Img :=
  { p with residual_blocks := p.residual_blocks ++ [(residual, pids)] }

/-- `Problem.initialize_params`: records the initial parameter values. -/
def ProblemModel.initialize_params {G Img : Type} (p : ProblemModel G Img)
    (params : List (String × G)) : ProblemModel G Img :=
  { p with init_params := params }

/-- The per-level `PhotometricResidual` constructed by the loop body of
`_compute_frame_to_frame_motion` (lines 112-129): level data looked up in
both keyframes and the camera intrinsics scaled by `pyrfactor`.  `none`
models the Python attribute/index errors when the keyframes lack the
level data. -/
def levelResidualArgs {G Img Cov : Type} (iops : ImageOps Img) (camera : PyrCamera)
    (ref_frame track_frame : DenseKeyframe G Img Cov) (pyrlevel : ℕ) :
    Option (PhotometricResidualArgs Img) := do
  let pyrfactor : ℚ := 1 / 2 ^ pyrlevel
  let im_ref ← ref_frame.image[pyrlevel]?
  let dispList ← ref_frame.disparity
  let disp_ref ← dispList[pyrlevel]?
  let jacList ← ref_frame.jacobian
  let jac_ref ← jacList[pyrlevel]?
  let im_track ← track_frame.image[pyrlevel]?
  some
    { camera :=
        { fu := camera.fu * pyrfactor
          fv := camera.fv * pyrfactor
          cu := camera.cu * pyrfactor
          cv := camera.cv * pyrfactor
          w := iops.width im_ref
          h := iops.height im_ref }
      im_ref := im_ref
      disp_ref := disp_ref
      jac_ref := jac_ref
      im_track := im_track
      stiffness := 1
      loss := LossKind.L2 }

/-- The fresh per-level problem: constructed, given its single residual
block over the parameter `T_1_0`, and initialized from the previous
level's parameters (lines 131-133). -/
def mkLevelProblem {G Img : Type} (opts : Options)
    (args : PhotometricResidualArgs Img) (params : List (String × G)) :
    ProblemModel G Img :=
  ((ProblemModel.empty opts).add_residual_block args [("T_1_0")]).initialize_params params

/-- Instrumented record of one loop iteration of
`_compute_frame_to_frame_motion`: the level, the problem it built, and
the parameters its solve returned. -/
structure LevelRecord (G Img : Type) where
  pyrlevel : ℕ
  problem : ProblemModel G Img
  solved_params : List (String × G)
deriving DecidableEq

/-- One iteration of the level loop in `_compute_frame_to_frame_motion`
(lines 111-134), threading the current parameters and appending the
iteration's record to the trace. -/
def levelStep {G Img Cov : Type} (iops : ImageOps Img)
    (solve : ProblemModel G Img → List (String × G)) (camera : PyrCamera)
    (opts : Options) (ref_frame track_frame : DenseKeyframe G Img Cov)
    (st : List (String × G) × List (LevelRecord G Img)) (pyrlevel : ℕ) :
    Option (List (String × G) × List (LevelRecord G Img)) :=
  (levelResidualArgs iops camera ref_frame track_frame pyrlevel).map (fun args =>
    let problem := mkLevelProblem opts args st.1
    let params := solve problem
    (params, st.2 ++ [⟨pyrlevel, problem, params⟩]))

/-- `DenseStereoPipeline._compute_frame_to_frame_motion` from
`pyslam/pipelines/dense_stereo.py` (lines 105-136): parameters start at
the group identity, the level sequence is `list(range(pyrlevels))`
reversed with its last element dropped, each level runs one solve
(modelled by the external `solve` oracle), and the final `T_1_0` entry is
returned, together with the per-level trace. -/
def computeFrameToFrameMotion {G Img Cov : Type} {dof : ℕ}
    (ops : LieGroupOps G dof) (iops : ImageOps Img)
    (solve : ProblemModel G Img → List (String × G)) (camera : PyrCamera)
    (opts : Options) (pyrlevels : ℕ)
    (ref_frame track_frame : DenseKeyframe G Img Cov) :
    Option (G × List (LevelRecord G Img)) := do
  let init : List (String × G) := [(("T_1_0"), ops.one)]
  let seq := ((List.range pyrlevels).reverse).dropLast
  let st ← seq.foldlM (levelStep iops solve camera opts ref_frame track_frame) (init, [])
  let T ← List.lookup ("T_1_0") st.1
  some (T, st.2)

/-- The state of a `DenseStereoPipeline` instance (lines 68-87). -/
structure PipelineState (G Img Cov : Type) where
  camera : PyrCamera
  first_pose : G
  first_pose_covar : Cov
  keyframes : List (DenseKeyframe G Img Cov)
  problem_options : Options
  pyrlevels : ℕ
deriving DecidableEq

/-- `DenseStereoPipeline.__init__` (lines 68-87): empty keyframe list,
freshly constructed `Options` mutated by the default-parameter
assignments, and four pyramid levels. -/
def mkDenseStereoPipeline {G Img Cov : Type} (camera : PyrCamera)
    (first_pose : G) (first_pose_covar : Cov) (constructed_options : Options) :
    PipelineState G Img Cov :=
  { camera := camera
    first_pose := first_pose
    first_pose_covar := first_pose_covar
    keyframes := []
    problem_options := denseStereoInitOptions constructed_options
    pyrlevels := 4 }

/-- `DenseStereoPipeline.track` from `pyslam/pipelines/dense_stereo.py`
(lines 89-103).  `id_covar` is the default covariance argument
`np.identity(6)` of `DenseKeyframe.__init__`. -/
def track {G Img Cov : Type} {dof : ℕ} (ops : LieGroupOps G dof)
    (iops : ImageOps Img) (solve : ProblemModel G Img → List (String × G))
    (id_covar : Cov) (st : PipelineState G Img Cov) (im_left im_right : Img) :
    Option (PipelineState G Img Cov) :=
  if st.keyframes.length = 0 then
    (mkDenseKeyframe iops im_left im_right st.pyrlevels st.first_pose st.first_pose_covar
      true true).bind (fun trackframe =>
        some { st with keyframes := st.keyframes ++ [trackframe] })
  else
    (mkDenseKeyframe iops im_left im_right st.pyrlevels ops.one id_covar true true).bind
      (fun trackframe =>
        (st.keyframes.getLast?).bind (fun ref_frame =>
          (computeFrameToFrameMotion ops iops solve st.camera st.problem_options st.pyrlevels
            ref_frame trackframe).bind (fun x =>
              some { st with keyframes :=
                st.keyframes ++
                  [{ trackframe with T_c_w := ops.mul x.1 ref_frame.T_c_w }] })))

/-- The warm-start chaining property of an instrumented level trace:
the first problem is initialized from `init`, every later problem is
initialized from the previous level's solved parameters, and the final
parameters are the last solve's output (or `init` for an empty trace). -/
def chainedFrom {G Img : Type} (init : List (String × G)) :
    List (LevelRecord G Img) → List (String × G) → Prop
  | [], p => p = init
  | r :: rest, p => r.problem.init_params = init ∧ chainedFrom r.solved_params rest p

/-! ## Concrete instantiations of the external interfaces

Used to evaluate the embedded program on explicit inputs: the additive
rationals as a one-degree-of-freedom group, trivial image operations on
`ℕ`-coded images, and a solve oracle that increments every parameter. -/

/-- The additive rationals as a concrete `LieGroupOps` instance. -/
def opsRat : LieGroupOps ℚ 1 :=
  { mul := fun a b => a + b
    inv := fun a => -a
    one := 0
    log := fun a => fun _ => a
    adjoint := fun _ => 1 }

/-- Trivial concrete image operations on `ℕ`-coded images. -/
def iopsNat : ImageOps ℕ :=
  { pyrDown := fun i => i + 1
    toFloat := fun i => i
    stereoDisp := fun _ _ _ => 0
    sobelX := fun i => i
    sobelY := fun i => i
    width := fun _ => 1
    height := fun _ => 1 }

/-- A concrete solve oracle: increments every parameter value, so each
level's output is distinguishable from its input. -/
def solveC : ProblemModel ℚ ℕ → List (String × ℚ) :=
  fun p => p.init_params.map (fun kv => (kv.1, kv.2 + 1))

/-- A concrete stereo camera. -/
def camC : PyrCamera := ⟨1, 1, 1, 1, 2, 2⟩

/-- A concrete freshly-constructed `Options` value with
`allow_nondecreasing_steps` unset. -/
def optsA : Options :=
  { max_iterations := 100
    cost_tolerance := 1 / 1000000
    allow_nondecreasing_steps := false
    max_nondecreasing_steps := 3
    min_cost_decrease := 99 / 100 }

/-- The options value after the pipeline constructor's assignments. -/
def optsB : Options := denseStereoInitOptions optsA

/-- A concrete four-level reference keyframe. -/
def kfC4 : DenseKeyframe ℚ ℕ Unit :=
  ⟨4, 0, (), [10, 11, 12, 13], some [0, 1, 2, 3], some [(0, 0), (1, 1), (2, 2), (3, 3)]⟩

/-- A concrete four-level tracking keyframe. -/
def kfE4 : DenseKeyframe ℚ ℕ Unit :=
  ⟨4, 0, (), [20, 21, 22, 23], some [4, 5, 6, 7], some [(4, 4), (5, 5), (6, 6), (7, 7)]⟩

/-- A concrete two-level reference keyframe. -/
def kfD : DenseKeyframe ℚ ℕ Unit :=
  ⟨2, 0, (), [10, 11], some [5, 6], some [(1, 2), (3, 4)]⟩

/-- A concrete two-level tracking keyframe. -/
def kfE : DenseKeyframe ℚ ℕ Unit :=
  ⟨2, 0, (), [20, 21], some [7, 8], some [(5, 6), (7, 8)]⟩

/-- The residual arguments built at pyramid level 1 for `kfD`/`kfE`. -/
def argsD : PhotometricResidualArgs ℕ :=
  ⟨⟨1/2, 1/2, 1/2, 1/2, 1, 1⟩, 11, 6, (3, 4), 21, 1, LossKind.L2⟩

/-- The single level record produced by the two-level motion solve on
`kfD`/`kfE`. -/
def recD : LevelRecord ℚ ℕ :=
  ⟨1, ⟨optsB, [(argsD, [("T_1_0")])], [(("T_1_0"), 0)]⟩, [(("T_1_0"), 1)]⟩

/-- A concrete two-level keyframe with a nonzero world pose, used as the
previous keyframe of a pipeline state. -/
def kfC : DenseKeyframe ℚ ℕ Unit :=
  ⟨2, 7, (), [30, 31], some [0, 0], some [(30, 30), (31, 31)]⟩

/-- A concrete pipeline state holding one previous keyframe. -/
def stC : PipelineState ℚ ℕ Unit := ⟨camC, 0, (), [kfC], optsB, 2⟩

/-- The keyframe appended by tracking `(10, 20)` from `stC`. -/
def tfC2 : DenseKeyframe ℚ ℕ Unit :=
  ⟨2, 8, (), [10, 11], some [0, 0], some [(10, 10), (11, 11)]⟩

/-- The pipeline state after tracking `(10, 20)` from `stC`. -/
def stC2 : PipelineState ℚ ℕ Unit := ⟨camC, 0, (), [kfC, tfC2], optsB, 2⟩

/-- A concrete relative-pose cost whose observation is the group
identity of `opsRat`. -/
def cRat : PoseToPoseCost ℚ 1 := ⟨0, 1⟩

/-- Concrete external operations for the photometric cost: points are
the measurements themselves and the pose acts trivially. -/
def popsC : PhotoOps ℚ (ℚ × ℚ × ℚ) Unit 1 :=
  { act := fun _ p => p
    odot := fun _ => Matrix.of (fun _ _ => 1)
    bilinear := fun _ u v => u + v }

/-- A concrete one-pixel camera whose validity check accepts exactly the
measurements with third component 1. -/
def pcamC : PhotoCamera (ℚ × ℚ × ℚ) :=
  { w := 1
    h := 1
    is_valid_measurement := fun mm => decide (mm.2.2 = 1)
    triangulate := fun mm => mm
    project := fun p => p
    projectJac := fun _ => 1 }

/-- A concrete photometric cost whose single pixel passes both validity
filters (disparity 1). -/
def pcostC : PhotometricCost (ℚ × ℚ × ℚ) Unit :=
  { camera := pcamC
    im_ref := fun _ _ => 0
    disp_ref := fun _ _ => 1
    jac_ref := fun _ _ _ => 0
    im_track := ()
    stiffness := 1 }

/-- A concrete photometric cost none of whose pixels passes the validity
filter (disparity 0). -/
def pcostBad : PhotometricCost (ℚ × ℚ × ℚ) Unit :=
  { camera := pcamC
    im_ref := fun _ _ => 0
    disp_ref := fun _ _ => 0
    jac_ref := fun _ _ _ => 0
    im_track := ()
    stiffness := 1 }

/-! ## Theorems -/

/-- `maskFilter` with a mask computed pointwise from the filtered list
itself is ordinary filtering. -/
theorem maskFilter_map {α β : Type} (q : α → Bool) (f : α → β) :
    ∀ l : List α, maskFilter (l.map q) (l.map f) = (l.filter q).map f := by
  intro l
  induction l with
  | nil => rfl
  | cons a t ih =>
    simp only [List.map_cons, maskFilter, List.zip_cons_cons, List.filterMap_cons,
      List.filter_cons] at ih ⊢
    cases h : q a <;> simp [h, ih, maskFilter]

/-- The additive rationals satisfy the Lie-group laws. -/
theorem opsRat_laws : LieGroupLaws opsRat := by
  constructor
  · intro g; simp [opsRat]
  · simp [opsRat]
  · intro g; simp [opsRat]
  · funext i; simp [opsRat]

/-- `PhotometricCost.evaluate` without Jacobians: the residual is the
spec-side per-pixel formula mapped over the surviving pixels. -/
theorem photoEvalNone {G Pt Img : Type} {dof : ℕ} (ops : PhotoOps G Pt Img dof)
    (c : PhotometricCost Pt Img) (T : G) :
    PhotometricCost.evaluate ops c [T] none =
      some ((photoSurvivors ops c T).map (specPhotoResidualAt ops c T), none) := by
  unfold PhotometricCost.evaluate
  simp only [List.getElem?_cons_zero, Option.some_bind, truthy, Bool.false_eq_true, if_false,
    List.map_map, maskFilter_map, List.filter_filter, List.zip_map',
    photoSurvivors, specPhotoResidualAt, photoWarp, photoPoint, photoUvd, Function.comp,
    Bool.and_comm]
  rfl

/-- Mapping a function over a list preserves emptiness. -/
theorem isEmpty_map {α β : Type} (f : α → β) (l : List α) :
    (l.map f).isEmpty = l.isEmpty := by
  cases l <;> rfl

/-- `PhotometricCost.evaluate` with the pose Jacobian requested: when no
pixel survives, the empty `np.bmat` raises (`none`); otherwise the
residual as above and one Jacobian row per surviving pixel. -/
theorem photoEvalJacTrue {G Pt Img : Type} {dof : ℕ} (ops : PhotoOps G Pt Img dof)
    (c : PhotometricCost Pt Img) (T : G) :
    PhotometricCost.evaluate ops c [T] (some [true]) =
      if (photoSurvivors ops c T).isEmpty then none
      else
        some ((photoSurvivors ops c T).map (specPhotoResidualAt ops c T),
          some [some ((photoSurvivors ops c T).map (specPhotoJacRowAt ops c T))]) := by
  unfold PhotometricCost.evaluate
  simp only [List.getElem?_cons_zero, Option.some_bind, truthy, List.isEmpty_cons,
    Bool.not_false, if_true, Option.getD_some, List.map_map, maskFilter_map,
    List.filter_filter, List.zip_map', List.map_cons, List.map_nil, List.set_cons_zero,
    isEmpty_map, photoSurvivors, specPhotoResidualAt, specPhotoJacRowAt, photoWarp,
    photoPoint, photoUvd, Function.comp, Bool.and_comm]
  rfl

/-- `PhotometricCost.evaluate` with Jacobians supplied but the pose flag
false: the residual, and a `none` Jacobian slot. -/
theorem photoEvalFalse {G Pt Img : Type} {dof : ℕ} (ops : PhotoOps G Pt Img dof)
    (c : PhotometricCost Pt Img) (T : G) :
    PhotometricCost.evaluate ops c [T] (some [false]) =
      some ((photoSurvivors ops c T).map (specPhotoResidualAt ops c T), some [none]) := by
  unfold PhotometricCost.evaluate
  simp only [List.getElem?_cons_zero, Option.some_bind, truthy, List.isEmpty_cons,
    Bool.not_false, if_true, Bool.false_eq_true, if_false, Option.getD_some, List.map_map,
    maskFilter_map, List.filter_filter, List.zip_map', List.map_cons, List.map_nil,
    photoSurvivors, specPhotoResidualAt, photoWarp, photoPoint, photoUvd,
    Function.comp, Bool.and_comm]
  rfl

/-- Claim C3 counterexample: on a cost whose every pixel has invalid
disparity, the invocation with the pose Jacobian requested does not
return a shrunken pair — it raises (the empty `np.bmat`, modelled by
`none`) — while the Jacobian-free invocation of the same cost returns
the empty residual normally. -/
theorem photometric_empty_jacobian_raises :
    PhotometricCost.evaluate popsC pcostBad [(0 : ℚ)] (some [true]) = none ∧
    PhotometricCost.evaluate popsC pcostBad [(0 : ℚ)] none = some ([], none) := by
  constructor <;> rfl

/-- Claim C3 (amended): `PhotometricCost.evaluate` removes pixels with an
invalid reference measurement or an invalid warped projection from both
the residual and the Jacobian: the Jacobian-free invocation always
returns one residual entry per pixel passing both validity filters; the
invocation with the pose Jacobian requested does so — with exactly that
many Jacobian rows — whenever at least one pixel survives, and raises
(`np.bmat` of an empty block list) when no pixel survives. -/
theorem photometric_filtering_shrinks_residual_and_jacobian
    {G Pt Img : Type} {dof : ℕ} (ops : PhotoOps G Pt Img dof)
    (c : PhotometricCost Pt Img) (T : G) :
    (∃ r : List ℚ, PhotometricCost.evaluate ops c [T] none = some (r, none) ∧
      r.length = (photoSurvivors ops c T).length) ∧
    (photoSurvivors ops c T ≠ [] →
      ∃ (r : List ℚ) (rows : List (Fin dof → ℚ)),
        PhotometricCost.evaluate ops c [T] (some [true]) = some (r, some [some rows]) ∧
        r.length = (photoSurvivors ops c T).length ∧
        rows.length = r.length) ∧
    (photoSurvivors ops c T = [] →
      PhotometricCost.evaluate ops c [T] (some [true]) = none) := by
  refine ⟨⟨_, photoEvalNone ops c T, by simp⟩, ?_, ?_⟩
  · intro hne
    have hF : (photoSurvivors ops c T).isEmpty = false :=
      (List.isEmpty_eq_false).mpr hne
    refine ⟨(photoSurvivors ops c T).map (specPhotoResidualAt ops c T),
      (photoSurvivors ops c T).map (specPhotoJacRowAt ops c T), ?_, by simp, by simp⟩
    rw [photoEvalJacTrue, hF]
    rfl
  · intro hemp
    rw [photoEvalJacTrue, hemp]
    rfl

/-- Witness for amended claim C3: on the one-pixel cost with valid
disparity the Jacobian invocation returns one residual entry and one
Jacobian row; on the all-invalid cost it raises. -/
theorem photometric_filtering_shrinks_residual_and_jacobian_witness :
    (∃ (r : List ℚ) (rows : List (Fin 1 → ℚ)),
      PhotometricCost.evaluate popsC pcostC [(0 : ℚ)] (some [true]) =
        some (r, some [some rows]) ∧
      r.length = (photoSurvivors popsC pcostC 0).length ∧
      rows.length = r.length) ∧
    PhotometricCost.evaluate popsC pcostBad [(2 : ℚ)] (some [true]) = none :=
  ⟨(photometric_filtering_shrinks_residual_and_jacobian popsC pcostC 0).2.1 (by decide),
   (photometric_filtering_shrinks_residual_and_jacobian popsC pcostBad 2).2.2 (by decide)⟩

/-- Claim C6: at any level, the photometric residual is computed by
triangulating each valid reference pixel to 3D with the camera model,
transforming by the candidate relative pose, projecting into the tracking
image, sampling there by bilinear interpolation, and scaling the
difference between the sampled intensity and the true reference intensity
by the stiffness. -/
theorem photometric_residual_pipeline {G Pt Img : Type} {dof : ℕ}
    (ops : PhotoOps G Pt Img dof) (c : PhotometricCost Pt Img) (T : G) :
    PhotometricCost.evaluate ops c [T] none =
      some ((photoSurvivors ops c T).map (specPhotoResidualAt ops c T), none) :=
  photoEvalNone ops c T

/-- Claim C4: the relative-pose cost returns
`stiffness . log(T_2_0_est * T_1_0_est^-1 * T_2_1_obs^-1)` as residual;
when Jacobians are requested, the first pose block is the stiffness times
the negated adjoint of `T_2_0_est` and the second is the stiffness times
the identity on the tangent space. -/
theorem pose_to_pose_residual_and_jacobians {G : Type} {dof : ℕ}
    (ops : LieGroupOps G dof) (c : PoseToPoseCost G dof) (T10 T20 : G) :
    PoseToPoseCost.evaluate ops c [T10, T20] (some [true, true]) =
      some (c.stiffness.mulVec
              (ops.log (ops.mul (ops.mul T20 (ops.inv T10)) (ops.inv c.T_2_1_obs))),
            some [some (c.stiffness * (-(ops.adjoint T20))),
                  some (c.stiffness * (1 : Matrix (Fin dof) (Fin dof) ℚ))]) ∧
    PoseToPoseCost.evaluate ops c [T10, T20] none =
      some (c.stiffness.mulVec
              (ops.log (ops.mul (ops.mul T20 (ops.inv T10)) (ops.inv c.T_2_1_obs))),
            none) :=
  ⟨rfl, rfl⟩

/-- Claim C5: when the relative observation is the group identity and the
two pose estimates are equal, the residual returned by any invocation of
the relative-pose cost is exactly the zero vector. -/
theorem pose_to_pose_zero_residual_on_identity_loop {G : Type} {dof : ℕ}
    (ops : LieGroupOps G dof) (laws : LieGroupLaws ops)
    (c : PoseToPoseCost G dof) (hobs : c.T_2_1_obs = ops.one) (T : G)
    (cj : Option (List Bool)) (r : Fin dof → ℚ)
    (js : Option (List (Option (Matrix (Fin dof) (Fin dof) ℚ))))
    (h : PoseToPoseCost.evaluate ops c [T, T] cj = some (r, js)) : r = 0 := by
  have hres : c.stiffness.mulVec
      (ops.log (ops.mul (ops.mul T (ops.inv T)) (ops.inv c.T_2_1_obs))) = 0 := by
    rw [hobs, laws.mul_inv, laws.inv_one, laws.mul_one, laws.log_one, Matrix.mulVec_zero]
  unfold PoseToPoseCost.evaluate at h
  simp only [List.getElem?_cons_zero, List.getElem?_cons_succ, Option.some_bind] at h
  split at h
  · cases h0 : (cj.getD [])[0]? with
    | none => simp [h0] at h
    | some f0 =>
      cases h1 : (cj.getD [])[1]? with
      | none => simp [h0, h1] at h
      | some f1 =>
        rw [h0, h1] at h
        have h3 : some (c.stiffness.mulVec
            (ops.log (ops.mul (ops.mul T (ops.inv T)) (ops.inv c.T_2_1_obs)))) = some r :=
          congrArg (Option.map Prod.fst) h
        exact ((Option.some.injEq _ _).mp h3).symm.trans hres
  · have h3 : some (c.stiffness.mulVec
        (ops.log (ops.mul (ops.mul T (ops.inv T)) (ops.inv c.T_2_1_obs)))) = some r :=
      congrArg (Option.map Prod.fst) h
    exact ((Option.some.injEq _ _).mp h3).symm.trans hres

/-- Witness for claim C5 at a concrete instance: additive rationals,
identity observation, both estimates equal to 5. -/
theorem pose_to_pose_zero_residual_on_identity_loop_witness :
    ∃ r, PoseToPoseCost.evaluate opsRat cRat [(5 : ℚ), 5] none = some (r, none) ∧ r = 0 := by
  have he : PoseToPoseCost.evaluate opsRat cRat [(5 : ℚ), 5] none =
      some (cRat.stiffness.mulVec
        (opsRat.log (opsRat.mul (opsRat.mul 5 (opsRat.inv 5)) (opsRat.inv cRat.T_2_1_obs))),
        none) := rfl
  exact ⟨_, he,
    pose_to_pose_zero_residual_on_identity_loop opsRat opsRat_laws cRat rfl 5 none _ _ he⟩

/-- Claim C10 counterexample: on a photometric cost none of whose pixels
is valid, supplying `compute_jacobians` with the pose flag true does not
return a `(residual, jacobians)` pair — the empty `np.bmat` raises,
modelled by `none`. -/
theorem flag_protocol_photometric_raises :
    PhotometricCost.evaluate popsC pcostBad [(1 : ℚ)] (some [true]) = none := by
  rfl

/-- Claim C10 (amended): for every cost-function variant, `evaluate` with
`compute_jacobians` omitted or `None` returns only the residual (no
Jacobians component), and with `compute_jacobians` supplied it returns a
residual/Jacobians pair in which every slot whose flag is false holds
`None` — except that `PhotometricCost.evaluate` with the pose flag true
returns the pair only when at least one pixel passes both validity
filters, and raises (`np.bmat` of an empty block list) when none does.
Each non-degenerate conjunct gives the exact returned value, with the
false-flag slots visibly `none`. -/
theorem evaluate_jacobian_flag_protocol :
    (∀ (c : QuadraticCost) (a b d2 : ℚ) (f0 f1 f2 : Bool),
      QuadraticCost.evaluate c [a, b, d2] none =
        some ([c.stiffness * (a * c.x * c.x + b * c.x + d2 - c.y)], none) ∧
      QuadraticCost.evaluate c [a, b, d2] (some [f0, f1, f2]) =
        some ([c.stiffness * (a * c.x * c.x + b * c.x + d2 - c.y)],
          some [if f0 then some (c.stiffness * c.x * c.x) else none,
                if f1 then some (c.stiffness * c.x) else none,
                if f2 then some (c.stiffness * 1) else none])) ∧
    (∀ (G : Type) (dof : ℕ) (ops : LieGroupOps G dof) (c : PoseCost G dof) (T : G) (f0 : Bool),
      PoseCost.evaluate ops c [T] none =
        some (c.stiffness.mulVec (ops.log (ops.mul T (ops.inv c.T_obs))), none) ∧
      PoseCost.evaluate ops c [T] (some [f0]) =
        some (c.stiffness.mulVec (ops.log (ops.mul T (ops.inv c.T_obs))),
          some [if f0 then some (c.stiffness * (1 : Matrix (Fin dof) (Fin dof) ℚ))
                else none])) ∧
    (∀ (G : Type) (dof : ℕ) (ops : LieGroupOps G dof) (c : PoseToPoseCost G dof)
        (T10 T20 : G) (f0 f1 : Bool),
      PoseToPoseCost.evaluate ops c [T10, T20] none =
        some (c.stiffness.mulVec
          (ops.log (ops.mul (ops.mul T20 (ops.inv T10)) (ops.inv c.T_2_1_obs))), none) ∧
      PoseToPoseCost.evaluate ops c [T10, T20] (some [f0, f1]) =
        some (c.stiffness.mulVec
          (ops.log (ops.mul (ops.mul T20 (ops.inv T10)) (ops.inv c.T_2_1_obs))),
          some [if f0 then some (c.stiffness * (-(ops.adjoint T20))) else none,
                if f1 then some (c.stiffness * (1 : Matrix (Fin dof) (Fin dof) ℚ))
                else none])) ∧
    (∀ (G Pt : Type) (m dof : ℕ) (ops : ReprojGroupOps G Pt dof)
        (c : ReprojectionCost Pt m) (T : G) (pt : Pt) (f0 f1 : Bool),
      ReprojectionCost.evaluate ops c (T, pt) none =
        some (c.stiffness.mulVec (c.camera.project (ops.act T pt) - c.obs), none) ∧
      ReprojectionCost.evaluate ops c (T, pt) (some [f0, f1]) =
        some (c.stiffness.mulVec (c.camera.project (ops.act T pt) - c.obs),
          some (if f0 then
                  some (c.stiffness *
                    (c.camera.projectJac (ops.act T pt) * ops.odot (ops.act T pt)))
                else none,
                if f1 then
                  some (c.stiffness *
                    (c.camera.projectJac (ops.act T pt) * ops.rotMatrix T))
                else none))) ∧
    (∀ (G Pt Img : Type) (dof : ℕ) (ops : PhotoOps G Pt Img dof)
        (c : PhotometricCost Pt Img) (T : G),
      ∃ r : List ℚ,
        PhotometricCost.evaluate ops c [T] none = some (r, none) ∧
        PhotometricCost.evaluate ops c [T] (some [false]) = some (r, some [none]) ∧
        (photoSurvivors ops c T ≠ [] →
          ∃ rows : List (Fin dof → ℚ),
            PhotometricCost.evaluate ops c [T] (some [true]) =
              some (r, some [some rows])) ∧
        (photoSurvivors ops c T = [] →
          PhotometricCost.evaluate ops c [T] (some [true]) = none)) := by
  refine ⟨?_, ?_, ?_, ?_, ?_⟩
  · intro c a b d2 f0 f1 f2
    exact ⟨rfl, rfl⟩
  · intro G dof ops c T f0
    refine ⟨rfl, ?_⟩
    cases f0 <;> rfl
  · intro G dof ops c T10 T20 f0 f1
    refine ⟨rfl, ?_⟩
    cases f0 <;> cases f1 <;> rfl
  · intro G Pt m dof ops c T pt f0 f1
    exact ⟨rfl, rfl⟩
  · intro G Pt Img dof ops c T
    refine ⟨_, photoEvalNone ops c T, photoEvalFalse ops c T, ?_, ?_⟩
    · intro hne
      have hF : (photoSurvivors ops c T).isEmpty = false :=
        (List.isEmpty_eq_false).mpr hne
      refine ⟨(photoSurvivors ops c T).map (specPhotoJacRowAt ops c T), ?_⟩
      rw [photoEvalJacTrue, hF]
      rfl
    · intro hemp
      rw [photoEvalJacTrue, hemp]
      rfl

/-- Witness for amended claim C10: on the one-pixel valid photometric
cost the false-flag invocation yields a `none` Jacobian slot and the
true-flag invocation yields the pair; on the all-invalid cost the
true-flag invocation raises. -/
theorem evaluate_jacobian_flag_protocol_witness :
    (∃ r : List ℚ,
      PhotometricCost.evaluate popsC pcostC [(0 : ℚ)] (some [false]) =
        some (r, some [none]) ∧
      ∃ rows : List (Fin 1 → ℚ),
        PhotometricCost.evaluate popsC pcostC [(0 : ℚ)] (some [true]) =
          some (r, some [some rows])) ∧
    PhotometricCost.evaluate popsC pcostBad [(3 : ℚ)] (some [true]) = none := by
  obtain ⟨r, h1, h2, h3, h4⟩ :=
    evaluate_jacobian_flag_protocol.2.2.2.2 ℚ (ℚ × ℚ × ℚ) Unit 1 popsC pcostC 0
  obtain ⟨r2, g1, g2, g3, g4⟩ :=
    evaluate_jacobian_flag_protocol.2.2.2.2 ℚ (ℚ × ℚ × ℚ) Unit 1 popsC pcostBad 3
  exact ⟨⟨r, h2, h3 (by decide)⟩, g4 (by decide)⟩

/-- The pyramid-building fold of `DenseKeyframe.__init__` succeeds for
any positive number of levels and produces exactly that many images. -/
theorem pyramid_foldl {Img : Type} (d : Img → Img) (im : Img) :
    ∀ n : ℕ, 1 ≤ n → ∃ l : List Img,
      (List.range n).foldl (pyrStep d im) none = some l ∧ l.length = n := by
  intro n
  induction n with
  | zero => intro h; omega
  | succ m ih =>
    intro _
    cases Nat.eq_zero_or_pos m with
    | inl h0 =>
      subst h0
      exact ⟨[im], rfl, rfl⟩
    | inr hm =>
      obtain ⟨l, hl, hlen⟩ := ih hm
      have hne : l ≠ [] := by
        intro hcon
        rw [hcon] at hlen
        simp at hlen
        omega
      obtain ⟨x, hx⟩ := Option.isSome_iff_exists.mp (List.getLast?_isSome.mpr hne)
      refine ⟨l ++ [d x], ?_, by simp [hlen]⟩
      rw [List.range_succ, List.foldl_append, hl]
      have hm0 : ¬ m = 0 := Nat.pos_iff_ne_zero.mp hm
      simp [pyrStep, hm0, hx]

/-- Claim C9: constructing a `DenseKeyframe` with the default
`pyrlevels = 0` fails (the pyramid locals are never assigned before use),
and under the precondition `pyrlevels >= 1` the constructor succeeds and
yields a keyframe with `pyrlevels` pyramid images. -/
theorem dense_keyframe_requires_positive_pyrlevels {G Img Cov : Type}
    (iops : ImageOps Img) (imL imR : Img) (T : G) (cov : Cov) (cd cj : Bool)
    (n : ℕ) (hn : 1 ≤ n) :
    mkDenseKeyframe iops imL imR 0 T cov cd cj = (none : Option (DenseKeyframe G Img Cov)) ∧
    ∃ kf : DenseKeyframe G Img Cov,
      mkDenseKeyframe iops imL imR n T cov cd cj = some kf ∧
      kf.image.length = n ∧ kf.pyrlevels = n := by
  constructor
  · rfl
  · obtain ⟨l, hl, hlen⟩ := pyramid_foldl iops.pyrDown imL n hn
    obtain ⟨l2, hl2, hlen2⟩ := pyramid_foldl iops.pyrDown imR n hn
    have hmk : mkDenseKeyframe iops imL imR n T cov cd cj =
        some ⟨n, T, cov, l.map iops.toFloat,
          if cd then
            some (((List.range n).zip (l.zip l2)).map
              (fun z => iops.stereoDisp z.1 z.2.1 z.2.2))
          else none,
          if cj then some (l.map (fun im => (iops.sobelX im, iops.sobelY im))) else none⟩ := by
      unfold mkDenseKeyframe
      rw [hl, hl2]
      rfl
    exact ⟨_, hmk, by simp [hlen], rfl⟩

/-- Witness for claim C9 at a concrete instance: zero levels fail, two
levels yield two pyramid images. -/
theorem dense_keyframe_requires_positive_pyrlevels_witness :
    mkDenseKeyframe iopsNat 10 20 0 (0 : ℚ) () true true =
      (none : Option (DenseKeyframe ℚ ℕ Unit)) ∧
    ∃ kf : DenseKeyframe ℚ ℕ Unit,
      mkDenseKeyframe iopsNat 10 20 2 (0 : ℚ) () true true = some kf ∧
      kf.image.length = 2 ∧ kf.pyrlevels = 2 :=
  dense_keyframe_requires_positive_pyrlevels iopsNat 10 20 (0 : ℚ) () true true 2 (by decide)

/-- Invariant of the level loop fold: a successful fold appends one
record per processed level in order, every appended problem holds the
passed options and exactly one residual block over the parameter
`T_1_0` built from that level's data, and initializations chain from the
initial parameters through each level's solved parameters. -/
theorem foldlM_levelStep_inv {G Img Cov : Type} (iops : ImageOps Img)
    (solve : ProblemModel G Img → List (String × G)) (camera : PyrCamera)
    (opts : Options) (rf tf : DenseKeyframe G Img Cov) :
    ∀ (ls : List ℕ) (p0 : List (String × G)) (t0 : List (LevelRecord G Img))
      (p : List (String × G)) (tr : List (LevelRecord G Img)),
      List.foldlM (levelStep iops solve camera opts rf tf) (p0, t0) ls = some (p, tr) →
      ∃ tnew : List (LevelRecord G Img),
        tr = t0 ++ tnew ∧
        chainedFrom p0 tnew p ∧
        tnew.map (fun r => r.pyrlevel) = ls ∧
        ∀ r ∈ tnew, r.problem.options = opts ∧
          ∃ args, levelResidualArgs iops camera rf tf r.pyrlevel = some args ∧
            r.problem.residual_blocks = [(args, [("T_1_0")])] := by
  intro ls
  induction ls with
  | nil =>
    intro p0 t0 p tr h
    simp only [List.foldlM_nil] at h
    have h2 : (p0, t0) = (p, tr) := (Option.some.injEq _ _).mp h
    injection h2 with hp ht
    subst hp
    subst ht
    exact ⟨[], by simp, rfl, rfl, by intro r hr; simp at hr⟩
  | cons a ls ih =>
    intro p0 t0 p tr h
    rw [List.foldlM_cons] at h
    cases ha : levelResidualArgs iops camera rf tf a with
    | none =>
      rw [show levelStep iops solve camera opts rf tf (p0, t0) a = none by
        simp [levelStep, ha]] at h
      simp at h
    | some args =>
      rw [show levelStep iops solve camera opts rf tf (p0, t0) a =
          some (solve (mkLevelProblem opts args p0),
            t0 ++ [⟨a, mkLevelProblem opts args p0, solve (mkLevelProblem opts args p0)⟩]) by
        simp [levelStep, ha]] at h
      have h2 : List.foldlM (levelStep iops solve camera opts rf tf)
          (solve (mkLevelProblem opts args p0),
            t0 ++ [⟨a, mkLevelProblem opts args p0, solve (mkLevelProblem opts args p0)⟩]) ls =
          some (p, tr) := h
      obtain ⟨tnew, htr, hchain, hmap, hblocks⟩ := ih _ _ _ _ h2
      refine ⟨⟨a, mkLevelProblem opts args p0, solve (mkLevelProblem opts args p0)⟩ :: tnew,
        ?_, ?_, ?_, ?_⟩
      · rw [htr]; simp
      · exact ⟨rfl, hchain⟩
      · simp [hmap]
      · intro r hr
        cases List.mem_cons.mp hr with
        | inl he =>
          subst he
          exact ⟨rfl, args, ha, rfl⟩
        | inr hm => exact hblocks r hm


/-- A nonempty chained trace ends in a record whose solved parameters
are the final parameters. -/
theorem chainedFrom_getLast {G Img : Type} :
    ∀ (l : List (LevelRecord G Img)) (init p : List (String × G)),
      chainedFrom init l p → l ≠ [] →
      ∃ last, l.getLast? = some last ∧ last.solved_params = p := by
  intro l
  induction l with
  | nil => intro _ _ _ hne; exact absurd rfl hne
  | cons r rest ih =>
    intro init p hc _
    cases rest with
    | nil =>
      obtain ⟨_, hrest⟩ := hc
      exact ⟨r, rfl, hrest.symm⟩
    | cons r2 rest2 =>
      obtain ⟨_, hrest⟩ := hc
      obtain ⟨last, hl, hs⟩ := ih _ _ hrest (by simp)
      exact ⟨last, by rw [List.getLast?_cons_cons]; exact hl, hs⟩

/-- Inversion of `computeFrameToFrameMotion`: a successful run is a
successful fold over the level sequence whose final parameters contain
the returned `T_1_0` entry. -/
theorem computeF2F_inv {G Img Cov : Type} {dof : ℕ} (ops : LieGroupOps G dof)
    (iops : ImageOps Img) (solve : ProblemModel G Img → List (String × G))
    (camera : PyrCamera) (opts : Options) (pyrlevels : ℕ)
    (rf tf : DenseKeyframe G Img Cov) (T : G) (tr : List (LevelRecord G Img))
    (h : computeFrameToFrameMotion ops iops solve camera opts pyrlevels rf tf = some (T, tr)) :
    ∃ p : List (String × G),
      List.foldlM (levelStep iops solve camera opts rf tf)
        ([(("T_1_0"), ops.one)], []) (((List.range pyrlevels).reverse).dropLast) =
        some (p, tr) ∧
      List.lookup ("T_1_0") p = some T := by
  unfold computeFrameToFrameMotion at h
  simp only [] at h
  cases hfold : List.foldlM (levelStep iops solve camera opts rf tf)
      ([(("T_1_0"), ops.one)], []) (((List.range pyrlevels).reverse).dropLast) with
  | none =>
    rw [hfold] at h
    simp at h
  | some st =>
    rw [hfold] at h
    have h2 : (do
        let T2 ← List.lookup ("T_1_0") st.1
        some (T2, st.2) : Option (G × List (LevelRecord G Img))) = some (T, tr) := h
    cases hlook : List.lookup ("T_1_0") st.1 with
    | none =>
      rw [hlook] at h2
      simp at h2
    | some T0 =>
      rw [hlook] at h2
      have h4 : (some (T0, st.2) : Option (G × List (LevelRecord G Img))) = some (T, tr) := h2
      injection h4 with h5
      injection h5 with hT htr
      refine ⟨st.1, ?_, by rw [hlook, hT]⟩
      rw [← htr]

/-- The level sequence `list(range(n))` reversed with the last element
dropped runs from `n - 1` down to `1`. -/
theorem range_reverse_dropLast :
    ∀ n : ℕ, 1 ≤ n →
      ((List.range n).reverse).dropLast =
        ((List.range (n - 1)).map (fun i => i + 1)).reverse := by
  intro n hn
  cases n with
  | zero => omega
  | succ m =>
    simp only [Nat.add_sub_cancel]
    rw [List.range_succ_eq_map, List.reverse_cons, List.dropLast_concat]

/-- Claim C1 counterexample: with the default four pyramid levels and a
solve oracle that increments the pose once per solve, the motion
computation runs solves only at levels 3, 2, 1 — level 0, the finest
resolution, is never processed (the level sequence drops its last
element) — and the returned pose is the level-1 solve output (three
increments, not four). -/
theorem finest_level_skipped_counterexample :
    (computeFrameToFrameMotion opsRat iopsNat solveC camC optsB 4 kfC4 kfE4).map
      (fun x => (x.1, x.2.map (fun r => r.pyrlevel))) = some (3, [3, 2, 1]) ∧
    (0 : ℕ) ∉ [3, 2, 1] := by
  constructor
  · norm_num [computeFrameToFrameMotion, levelStep, levelResidualArgs, mkLevelProblem,
      ProblemModel.empty, ProblemModel.add_residual_block, ProblemModel.initialize_params,
      solveC, opsRat, iopsNat, camC, optsB, optsA, denseStereoInitOptions, kfC4, kfE4,
      List.lookup, List.range_succ]
  · decide

/-- Claim C1 (amended): per keyframe pair,
`_compute_frame_to_frame_motion` runs one solve per pyramid level from
the coarsest level `pyrlevels - 1` down to level 1 only — the finest
(level-0) resolution is skipped — and the relative pose it returns is
the output of the level-1 solve. -/
theorem coarse_to_fine_levels_processed {G Img Cov : Type} {dof : ℕ}
    (ops : LieGroupOps G dof) (iops : ImageOps Img)
    (solve : ProblemModel G Img → List (String × G)) (camera : PyrCamera)
    (opts : Options) (pyrlevels : ℕ) (rf tf : DenseKeyframe G Img Cov)
    (T : G) (tr : List (LevelRecord G Img)) (h2 : 2 ≤ pyrlevels)
    (h : computeFrameToFrameMotion ops iops solve camera opts pyrlevels rf tf = some (T, tr)) :
    tr.map (fun r => r.pyrlevel) =
      ((List.range (pyrlevels - 1)).map (fun i => i + 1)).reverse ∧
    ∃ last, tr.getLast? = some last ∧ last.pyrlevel = 1 ∧
      List.lookup ("T_1_0") last.solved_params = some T := by
  obtain ⟨p, hfold, hlook⟩ :=
    computeF2F_inv ops iops solve camera opts pyrlevels rf tf T tr h
  obtain ⟨tnew, htr, hchain, hmap, _⟩ :=
    foldlM_levelStep_inv iops solve camera opts rf tf _ _ _ _ _ hfold
  rw [List.nil_append] at htr
  subst htr
  have hseq := range_reverse_dropLast pyrlevels (le_trans one_le_two h2)
  rw [hseq] at hmap
  refine ⟨hmap, ?_⟩
  have hne : tr ≠ [] := by
    intro hnil
    rw [hnil] at hmap
    have hlen := congrArg List.length hmap
    simp at hlen
    omega
  obtain ⟨last, hlast, hsolved⟩ := chainedFrom_getLast tr _ _ hchain hne
  refine ⟨last, hlast, ?_, by rw [hsolved]; exact hlook⟩
  have hml : (tr.map (fun r => r.pyrlevel)).getLast? = some 1 := by
    rw [hmap, List.getLast?_reverse, List.head?_map]
    obtain ⟨m, hm⟩ : ∃ m, pyrlevels - 1 = m + 1 := ⟨pyrlevels - 2, by omega⟩
    rw [hm, List.range_succ_eq_map]
    simp
  rw [List.getLast?_map, hlast] at hml
  simpa using hml

/-- Witness for amended claim C1 at a concrete two-level input. -/
theorem coarse_to_fine_levels_processed_witness :
    [recD].map (fun r => r.pyrlevel) =
      ((List.range (2 - 1)).map (fun i => i + 1)).reverse ∧
    ∃ last, [recD].getLast? = some last ∧ last.pyrlevel = 1 ∧
      List.lookup ("T_1_0") last.solved_params = some (1 : ℚ) := by
  have he : computeFrameToFrameMotion opsRat iopsNat solveC camC optsB 2 kfD kfE =
      some (1, [recD]) := by
    norm_num [computeFrameToFrameMotion, levelStep, levelResidualArgs, mkLevelProblem,
      ProblemModel.empty, ProblemModel.add_residual_block, ProblemModel.initialize_params,
      solveC, opsRat, iopsNat, camC, optsB, optsA, denseStereoInitOptions, kfD, kfE, recD,
      argsD, List.lookup]
  exact coarse_to_fine_levels_processed opsRat iopsNat solveC camC optsB 2 kfD kfE 1 [recD]
    (by norm_num) he

/-- Claim C8: every pyramid level processed by the motion computation
builds a fresh problem containing exactly one residual block — the
photometric residual of that level over the single pose parameter
`T_1_0` — and problem initializations chain: the group identity at the
coarsest processed level, each later problem initialized from the
previous (coarser) level's solution, the returned pose being looked up
in the final solution. -/
theorem per_level_problem_fresh_single_block_warm_start {G Img Cov : Type} {dof : ℕ}
    (ops : LieGroupOps G dof) (iops : ImageOps Img)
    (solve : ProblemModel G Img → List (String × G)) (camera : PyrCamera)
    (opts : Options) (pyrlevels : ℕ) (rf tf : DenseKeyframe G Img Cov)
    (T : G) (tr : List (LevelRecord G Img))
    (h : computeFrameToFrameMotion ops iops solve camera opts pyrlevels rf tf = some (T, tr)) :
    (∀ r ∈ tr, ∃ args, levelResidualArgs iops camera rf tf r.pyrlevel = some args ∧
        r.problem.residual_blocks = [(args, [("T_1_0")])]) ∧
    ∃ p, chainedFrom ([(("T_1_0"), ops.one)]) tr p ∧
      List.lookup ("T_1_0") p = some T := by
  obtain ⟨p, hfold, hlook⟩ :=
    computeF2F_inv ops iops solve camera opts pyrlevels rf tf T tr h
  obtain ⟨tnew, htr, hchain, _, hblocks⟩ :=
    foldlM_levelStep_inv iops solve camera opts rf tf _ _ _ _ _ hfold
  rw [List.nil_append] at htr
  subst htr
  exact ⟨fun r hr => (hblocks r hr).2, p, hchain, hlook⟩

/-- Witness for claim C8 at a concrete two-level input. -/
theorem per_level_problem_fresh_single_block_warm_start_witness :
    (∀ r ∈ [recD], ∃ args, levelResidualArgs iopsNat camC kfD kfE r.pyrlevel = some args ∧
        r.problem.residual_blocks = [(args, [("T_1_0")])]) ∧
    ∃ p, chainedFrom ([(("T_1_0"), opsRat.one)]) [recD] p ∧
      List.lookup ("T_1_0") p = some (1 : ℚ) := by
  have he : computeFrameToFrameMotion opsRat iopsNat solveC camC optsB 2 kfD kfE =
      some (1, [recD]) := by
    norm_num [computeFrameToFrameMotion, levelStep, levelResidualArgs, mkLevelProblem,
      ProblemModel.empty, ProblemModel.add_residual_block, ProblemModel.initialize_params,
      solveC, opsRat, iopsNat, camC, optsB, optsA, denseStereoInitOptions, kfD, kfE, recD,
      argsD, List.lookup]
  exact per_level_problem_fresh_single_block_warm_start opsRat iopsNat solveC camC optsB 2
    kfD kfE 1 [recD] he

/-- Claim C2 counterexample: the pipeline constructor does assign
`Options` fields after the instance is constructed — starting from a
freshly constructed `Options` value with `allow_nondecreasing_steps`
unset, the options stored by the pipeline differ from it. -/
theorem options_mutated_by_pipeline_init :
    (mkDenseStereoPipeline camC (0 : ℚ) () optsA : PipelineState ℚ ℕ Unit).problem_options ≠
      optsA := by
  norm_num [mkDenseStereoPipeline, denseStereoInitOptions, optsA]

/-- Claim C2 (amended): the `DenseStereoPipeline` constructor assigns
`allow_nondecreasing_steps = True`, `max_nondecreasing_steps = 3` and
`min_cost_decrease = 0.99` on the freshly constructed `Options` instance
(leaving its other fields unchanged) and stores the result; afterwards
that options value is passed unchanged to every per-level
`Problem`. -/
theorem options_assigned_then_passed_unchanged :
    (∀ o : Options,
      (denseStereoInitOptions o).allow_nondecreasing_steps = true ∧
      (denseStereoInitOptions o).max_nondecreasing_steps = 3 ∧
      (denseStereoInitOptions o).min_cost_decrease = 99 / 100 ∧
      (denseStereoInitOptions o).max_iterations = o.max_iterations ∧
      (denseStereoInitOptions o).cost_tolerance = o.cost_tolerance) ∧
    (∀ (G Img Cov : Type) (camera : PyrCamera) (fp : G) (fpc : Cov) (o : Options),
      (mkDenseStereoPipeline camera fp fpc o : PipelineState G Img Cov).problem_options =
        denseStereoInitOptions o) ∧
    (∀ (G Img Cov : Type) (dof : ℕ) (ops : LieGroupOps G dof) (iops : ImageOps Img)
       (solve : ProblemModel G Img → List (String × G)) (camera : PyrCamera)
       (opts : Options) (pyrlevels : ℕ) (rf tf : DenseKeyframe G Img Cov)
       (T : G) (tr : List (LevelRecord G Img)),
      computeFrameToFrameMotion ops iops solve camera opts pyrlevels rf tf = some (T, tr) →
      ∀ r ∈ tr, r.problem.options = opts) := by
  refine ⟨fun o => ⟨rfl, rfl, rfl, rfl, rfl⟩, fun G Img Cov camera fp fpc o => rfl, ?_⟩
  intro G Img Cov dof ops iops solve camera opts pyrlevels rf tf T tr h r hr
  obtain ⟨p, hfold, _⟩ :=
    computeF2F_inv ops iops solve camera opts pyrlevels rf tf T tr h
  obtain ⟨tnew, htr, _, _, hblocks⟩ :=
    foldlM_levelStep_inv iops solve camera opts rf tf _ _ _ _ _ hfold
  rw [List.nil_append] at htr
  subst htr
  exact (hblocks r hr).1

/-- Witness for amended claim C2 at a concrete two-level input. -/
theorem options_assigned_then_passed_unchanged_witness :
    (denseStereoInitOptions optsA).allow_nondecreasing_steps = true ∧
    ∀ r ∈ [recD], r.problem.options = optsB := by
  have he : computeFrameToFrameMotion opsRat iopsNat solveC camC optsB 2 kfD kfE =
      some (1, [recD]) := by
    norm_num [computeFrameToFrameMotion, levelStep, levelResidualArgs, mkLevelProblem,
      ProblemModel.empty, ProblemModel.add_residual_block, ProblemModel.initialize_params,
      solveC, opsRat, iopsNat, camC, optsB, optsA, denseStereoInitOptions, kfD, kfE, recD,
      argsD, List.lookup]
  exact ⟨(options_assigned_then_passed_unchanged.1 optsA).1,
    options_assigned_then_passed_unchanged.2.2 ℚ ℕ Unit 1 opsRat iopsNat solveC camC optsB 2
      kfD kfE 1 [recD] he⟩

/-- Claim C7: after a successful tracking solve for a new frame, the
appended keyframe's world pose is the estimated frame-to-frame relative
pose `T_1_0` left-composed with the previous keyframe's world pose
(`T_new = T_1_0 * T_prev`), and the new keyframe is appended to the
keyframe list. -/
theorem track_composes_pose_and_appends {G Img Cov : Type} {dof : ℕ}
    (ops : LieGroupOps G dof) (iops : ImageOps Img)
    (solve : ProblemModel G Img → List (String × G)) (id_covar : Cov)
    (st : PipelineState G Img Cov) (imL imR : Img) (st2 : PipelineState G Img Cov)
    (hne : st.keyframes ≠ [])
    (h : track ops iops solve id_covar st imL imR = some st2) :
    ∃ (tf0 ref : DenseKeyframe G Img Cov) (T : G) (tr : List (LevelRecord G Img)),
      st.keyframes.getLast? = some ref ∧
      mkDenseKeyframe iops imL imR st.pyrlevels ops.one id_covar true true = some tf0 ∧
      computeFrameToFrameMotion ops iops solve st.camera st.problem_options st.pyrlevels
        ref tf0 = some (T, tr) ∧
      st2.keyframes = st.keyframes ++ [{ tf0 with T_c_w := ops.mul T ref.T_c_w }] := by
  unfold track at h
  rw [if_neg (by simpa using hne)] at h
  simp only [Option.bind_eq_some] at h
  obtain ⟨tf0, hmk, ref, hl, x, hc, hlast⟩ := h
  obtain ⟨T, tr⟩ := x
  injection hlast with h5
  exact ⟨tf0, ref, T, tr, hl, hmk, hc, by rw [← h5]⟩

/-- Witness for claim C7 at a concrete pipeline state with one previous
keyframe at world pose 7; the appended keyframe's pose is 1 + 7 = 8. -/
theorem track_composes_pose_and_appends_witness :
    ∃ (tf0 ref : DenseKeyframe ℚ ℕ Unit) (T : ℚ) (tr : List (LevelRecord ℚ ℕ)),
      stC.keyframes.getLast? = some ref ∧
      mkDenseKeyframe iopsNat 10 20 stC.pyrlevels opsRat.one () true true = some tf0 ∧
      computeFrameToFrameMotion opsRat iopsNat solveC stC.camera stC.problem_options
        stC.pyrlevels ref tf0 = some (T, tr) ∧
      stC2.keyframes = stC.keyframes ++ [{ tf0 with T_c_w := opsRat.mul T ref.T_c_w }] := by
  have ht : track opsRat iopsNat solveC () stC 10 20 = some stC2 := by
    norm_num [track, stC, stC2, mkDenseKeyframe, pyrStep, computeFrameToFrameMotion, levelStep,
      levelResidualArgs, mkLevelProblem, ProblemModel.empty, ProblemModel.add_residual_block,
      ProblemModel.initialize_params, solveC, opsRat, iopsNat, camC, optsB, optsA,
      denseStereoInitOptions, kfC, tfC2, List.lookup, List.range_succ,
      List.replicate_succ, List.replicate_zero]
  exact track_composes_pose_and_appends opsRat iopsNat solveC () stC 10 20 stC2
    (by simp [stC]) ht

end Pyslam
